import Mathlib

/-!
Verification of the body-renaming heuristics of the Fusion 360 body renamer.

The development shallowly embeds the two source files:
* `fusion360_body_renamer.py` — descriptor extraction
  (`AdvancedBodyAnalyzer.analyze_body_characteristics`), the context
  classifier (`IntelligentNamingEngine.analyze_design_context`), the name
  selector (`generate_intelligent_names`, `_process_user_hint`,
  `_select_best_name`), and the JSON export/import utilities
  (`PowerUserUtils`);
* `geometry.py` — the point-to-line distance of `GeometryManager`.

Python floats are modelled as rationals, Python dicts with optional keys as
structures of `Option` fields, and Python exceptions as explicit error
values.  Definitions follow the source line by line; theorems at the end of
the file settle the specification claims.
-/

/-- Model of Python `str.lower` (the source only lowercases ASCII names):
maps `Char.toLower` over the characters.  The built-in `String.toLower`
is extensionally the same but does not reduce in the kernel. -/
def strLower (s : String) : String := String.mk (s.data.map Char.toLower)

/-- Model of the Python substring test `needle in hay`. -/
def hasSub (needle hay : String) : Bool := decide (needle.data <:+: hay.data)

/-- A body's derived property dictionary (`properties` in
`analyze_body_characteristics`).  Every key the source may or may not set is
an `Option` field; `none` models an absent dict key. -/
structure Props where
  volume : Option ℚ := none
  area : Option ℚ := none
  mass : Option ℚ := none
  width : Option ℚ := none
  height : Option ℚ := none
  depth : Option ℚ := none
  max_dimension : Option ℚ := none
  min_dimension : Option ℚ := none
  aspect_ratio : Option ℚ := none
  is_long_thin : Option Bool := none
  is_cubic : Option Bool := none
  is_flat : Option Bool := none
  face_count : Option Nat := none
  complexity : Option String := none
  center_x : Option ℚ := none
  center_y : Option ℚ := none
  center_z : Option ℚ := none
  is_centered : Option Bool := none
  quadrant : Option String := none
  error : Option String := none
  analysis_failed : Option Bool := none

/-- One entry of the `bodies_data` list handed to the naming engine:
the body's name and its `properties` dict. -/
structure BodyData where
  name : Option String := none
  properties : Props := {}

/-- Python `not props`: the dict is empty, i.e. no key was ever set. -/
def Props.isEmptyDict (p : Props) : Bool :=
  p.volume.isNone && p.area.isNone && p.mass.isNone && p.width.isNone &&
  p.height.isNone && p.depth.isNone && p.max_dimension.isNone &&
  p.min_dimension.isNone && p.aspect_ratio.isNone && p.is_long_thin.isNone &&
  p.is_cubic.isNone && p.is_flat.isNone && p.face_count.isNone &&
  p.complexity.isNone && p.center_x.isNone && p.center_y.isNone &&
  p.center_z.isNone && p.is_centered.isNone && p.quadrant.isNone &&
  p.error.isNone && p.analysis_failed.isNone

/-- The five context accumulators of `analyze_design_context`, in the
declaration order of the Python dict: mechanical, automotive, electronics,
furniture, architecture. -/
@[ext]
structure CtxScores where
  mechanical : Nat
  automotive : Nat
  electronics : Nat
  furniture : Nat
  architecture : Nat

def ctxZero : CtxScores := ⟨0, 0, 0, 0, 0⟩

def addCtx (c d : CtxScores) : CtxScores :=
  ⟨c.mechanical + d.mechanical, c.automotive + d.automotive,
   c.electronics + d.electronics, c.furniture + d.furniture,
   c.architecture + d.architecture⟩

/-- Per-body weight added to the accumulators by one loop iteration of
`analyze_design_context` (lines 174-198 of the source): an `elif` chain on
`max_dimension` followed by three independent shape tests. -/
def contextContrib (props : Props) : CtxScores :=
  let md := props.max_dimension.getD 0
  let base : CtxScores :=
    if md > 1000 then ⟨0, 0, 0, 0, 2⟩
    else if md < 10 then ⟨1, 0, 2, 0, 0⟩
    else if 50 < md ∧ md < 500 then ⟨1, 1, 0, 1, 0⟩
    else ctxZero
  let m1 : Nat := if props.is_long_thin.getD false then 1 else 0
  let a1 : Nat := if props.face_count.getD 0 > 20 then 1 else 0
  let f1 : Nat := if props.is_flat.getD false then 1 else 0
  ⟨base.mechanical + m1, base.automotive + a1, base.electronics + f1,
   base.furniture + f1, base.architecture⟩

/-- The accumulator state after the `for body_data in bodies_data` loop. -/
def accumulateContexts (bodies_data : List BodyData) : CtxScores :=
  bodies_data.foldl (fun c bd => addCtx c (contextContrib bd.properties)) ctxZero

/-- Python `max(xs, key=f)`: fold keeping the current best, replaced only on
a strictly greater key, so the first maximiser wins. -/
def pickBy {α β : Type} [LinearOrder β] (f : α → β) (p : α) (l : List α) : α :=
  l.foldl (fun best q => if f best < f q then q else best) p

/-- The association list `[(label, accumulator)]` in dict declaration order,
over which `max(contexts.keys(), key=lambda k: contexts[k])` ranges. -/
def contextPairs (c : CtxScores) : List (String × Nat) :=
  [("mechanical", c.mechanical), ("automotive", c.automotive),
   ("electronics", c.electronics), ("furniture", c.furniture),
   ("architecture", c.architecture)]

/-- `max(contexts.keys(), key=lambda k: contexts[k])` (line 201). -/
def contextMaxKey (c : CtxScores) : String :=
  (pickBy Prod.snd ("mechanical", c.mechanical)
    [("automotive", c.automotive), ("electronics", c.electronics),
     ("furniture", c.furniture), ("architecture", c.architecture)]).1

/-- `IntelligentNamingEngine.analyze_design_context` (lines 160-201). -/
def analyze_design_context (bodies_data : List BodyData) : String :=
  match bodies_data with
  | [] => "general"
  | _ :: _ => contextMaxKey (accumulateContexts bodies_data)

def mechanical_basic : List String :=
  ["Shaft", "Gear", "Bearing", "Pulley", "Sprocket", "Coupling", "Bushing",
   "Washer", "Housing", "Cover", "Base", "Frame", "Bracket", "Mount",
   "Support", "Clamp"]

def mechanical_advanced : List String :=
  ["Drive Shaft", "Input Gear", "Output Gear", "Bearing Race",
   "Timing Pulley", "Chain Sprocket", "Flexible Coupling", "Linear Bushing",
   "Spring Washer", "Motor Housing", "Access Cover", "Mounting Base",
   "Main Frame"]

def fasteners : List String :=
  ["Hex Bolt", "Cap Screw", "Socket Head", "Flat Head", "Pan Head",
   "Button Head", "Hex Nut", "Lock Nut", "Wing Nut", "Threaded Rod",
   "Dowel Pin", "Spring Pin"]

def automotive : List String :=
  ["Engine Block", "Cylinder Head", "Piston", "Connecting Rod", "Crankshaft",
   "Brake Disc", "Brake Caliper", "Suspension Arm", "Control Arm",
   "Steering Knuckle", "Body Panel", "Door Frame", "Window Frame", "Bumper",
   "Fender", "Hood"]

def electronics : List String :=
  ["PCB Main", "PCB Control", "Connector Housing", "Terminal Block",
   "Heat Sink", "Enclosure", "Front Panel", "Back Panel", "Display Mount",
   "Button Cap", "LED Holder", "Switch Housing", "Cable Clamp",
   "Strain Relief"]

def furniture : List String :=
  ["Table Top", "Table Leg", "Drawer Front", "Drawer Side", "Drawer Back",
   "Handle", "Knob", "Hinge", "Shelf", "Side Panel", "Back Panel",
   "Cushion Base", "Armrest", "Headrest", "Caster", "Support Bar"]

def architecture : List String :=
  ["Main Beam", "Support Beam", "Column", "Wall Panel", "Floor Slab",
   "Roof Beam", "Rafter", "Joist", "Stud", "Header", "Sill Plate",
   "Foundation", "Footing", "Window Frame", "Door Frame"]

/-- `IntelligentNamingEngine._load_advanced_patterns` (lines 104-140). -/
def naming_patterns : List (String × List String) :=
  [("mechanical_basic", mechanical_basic),
   ("mechanical_advanced", mechanical_advanced),
   ("fasteners", fasteners),
   ("automotive", automotive),
   ("electronics", electronics),
   ("furniture", furniture),
   ("architecture", architecture)]

/-- Python `dict.get(key, default)` on an association list. -/
def lookupD (table : List (String × List String)) (key : String)
    (dflt : List String) : List String :=
  match table.lookup key with
  | some v => v
  | none => dflt

/-- `IntelligentNamingEngine._process_user_hint` (lines 252-273). -/
def process_user_hint (hint : String) (default_context : String) : String :=
  if hint = "" then default_context ++ "_basic"
  else
    let hl := strLower hint
    if hasSub "car" hl || hasSub "auto" hl || hasSub "engine" hl ||
       hasSub "brake" hl || hasSub "wheel" hl then "automotive"
    else if hasSub "circuit" hl || hasSub "pcb" hl || hasSub "electronic" hl ||
       hasSub "connector" hl then "electronics"
    else if hasSub "table" hl || hasSub "chair" hl || hasSub "drawer" hl ||
       hasSub "furniture" hl then "furniture"
    else if hasSub "building" hl || hasSub "beam" hl || hasSub "column" hl ||
       hasSub "wall" hl then "architecture"
    else if hasSub "gear" hl || hasSub "shaft" hl || hasSub "bearing" hl ||
       hasSub "machine" hl then "mechanical_advanced"
    else if hasSub "bolt" hl || hasSub "screw" hl || hasSub "nut" hl ||
       hasSub "fastener" hl then "fasteners"
    else default_context ++ "_basic"

/-- The per-candidate score computed inside `_select_best_name`
(lines 282-311). -/
def nameScore (props : Props) (name : String) : Int :=
  let nl := strLower name
  let md := props.max_dimension.getD 0
  let s1 : Int :=
    if hasSub "large" nl || hasSub "main" nl then
      (if md > 100 then 10 else -5)
    else if hasSub "small" nl || hasSub "mini" nl then
      (if md < 50 then 10 else -5)
    else 0
  let s2 : Int :=
    if props.is_long_thin.getD false &&
       (hasSub "shaft" nl || hasSub "rod" nl || hasSub "bar" nl ||
        hasSub "beam" nl) then 15 else 0
  let s3 : Int :=
    if props.is_cubic.getD false &&
       (hasSub "block" nl || hasSub "cube" nl || hasSub "housing" nl)
    then 15 else 0
  let s4 : Int :=
    if props.is_flat.getD false &&
       (hasSub "plate" nl || hasSub "panel" nl || hasSub "cover" nl ||
        hasSub "top" nl) then 15 else 0
  let s5 : Int :=
    if props.complexity.getD "simple" == "complex" &&
       (hasSub "housing" nl || hasSub "assembly" nl) then 10 else 0
  s1 + s2 + s3 + s4 + s5

/-- `IntelligentNamingEngine._select_best_name` (lines 275-315).  The
`used_names` parameter is declared by the source but never read in its
body; it is kept to mirror the signature. -/
def select_best_name (props : Props) (base_names : List String)
    (used_names : String → Nat) : String :=
  match base_names with
  | [] => "Component"
  | h :: t =>
    if props.isEmptyDict then h
    else pickBy (nameScore props) h t

/-- Python `enumerate(bodies_data)`. -/
def enumF {α : Type} : Nat → List α → List (Nat × α)
  | _, [] => []
  | i, a :: t => (i, a) :: enumF (i + 1) t

/-- The sort key of `generate_intelligent_names` (lines 224-226):
`(max_dimension, center_x)` with defaults `0`, compared lexicographically
as Python compares key tuples. -/
def bodyKey (p : Nat × BodyData) : ℚ × ℚ :=
  (p.2.properties.max_dimension.getD 0, p.2.properties.center_x.getD 0)

/-- Boolean total preorder used by the stable sort of the bodies. -/
def keyLE (p q : Nat × BodyData) : Bool :=
  decide ((bodyKey p).1 < (bodyKey q).1 ∨
    ((bodyKey p).1 = (bodyKey q).1 ∧ (bodyKey p).2 ≤ (bodyKey q).2))

/-- Boolean order on the original indices, for the final
`generated_names.sort(key=lambda x: x[0])`. -/
def idxLE {α : Type} (p q : Nat × α) : Bool := decide (p.1 ≤ q.1)

/-- `name_counters[base_name] += 1` (with a fresh key initialised to 0). -/
def bump (c : String → Nat) (k : String) : String → Nat :=
  fun s => if s = k then c k + 1 else c s

/-- The body of the `for original_idx, body_data in sorted_bodies` loop
(lines 228-246): select a base name, bump its counter, and suffix it with
the counter when the batch chooses that base name more than once.
`allChosen` is the recomputed list
`[self._select_best_name(bd..., base_names, {}) for _, bd in sorted_bodies]`
of line 240, constant across iterations. -/
def nameLoop (base_names : List String) (allChosen : List String) :
    (String → Nat) → List (Nat × BodyData) → List (Nat × String)
  | _, [] => []
  | counters, p :: rest =>
    let base := select_best_name p.2.properties base_names counters
    let counters' := bump counters base
    let final :=
      if 1 < allChosen.count base then base ++ " " ++ Nat.repr (counters' base)
      else base
    (p.1, final) :: nameLoop base_names allChosen counters' rest

/-- The candidate list picked on lines 215-217:
`naming_patterns.get(category, naming_patterns.get(context + '_basic',
naming_patterns['mechanical_basic']))`. -/
def baseNamesFor (bodies_data : List BodyData) (user_hint : String) :
    List String :=
  let context := analyze_design_context bodies_data
  let suggested_category := process_user_hint user_hint context
  lookupD naming_patterns suggested_category
    (lookupD naming_patterns (context ++ "_basic") mechanical_basic)

/-- `sorted(enumerate(bodies_data), key=...)` (lines 224-226); Python's
`sorted` is a stable merge sort. -/
def sortedBodiesOf (bodies_data : List BodyData) : List (Nat × BodyData) :=
  (enumF 0 bodies_data).mergeSort keyLE

/-- The base name chosen for one enumerated body (counters are ignored by
`_select_best_name`, so the empty dict is passed). -/
def chosenName (base_names : List String) (p : Nat × BodyData) : String :=
  select_best_name p.2.properties base_names (fun _ => 0)

/-- The line-240 list of every body's chosen base name, in sorted order. -/
def allChosenOf (bodies_data : List BodyData) (user_hint : String) :
    List String :=
  (sortedBodiesOf bodies_data).map
    (chosenName (baseNamesFor bodies_data user_hint))

/-- The `(original_idx, final_name)` pairs produced by the naming loop. -/
def nameLoopOf (bodies_data : List BodyData) (user_hint : String) :
    List (Nat × String) :=
  nameLoop (baseNamesFor bodies_data user_hint)
    (allChosenOf bodies_data user_hint) (fun _ => 0)
    (sortedBodiesOf bodies_data)

/-- `IntelligentNamingEngine.generate_intelligent_names` (lines 203-250):
empty batch short-circuits to `[]`; otherwise run the loop over the sorted
bodies and sort the `(original_idx, name)` pairs back by index. -/
def generate_intelligent_names (bodies_data : List BodyData)
    (user_hint : String) : List String :=
  match bodies_data with
  | [] => []
  | _ :: _ => ((nameLoopOf bodies_data user_hint).mergeSort idxLE).map Prod.snd

/-- The chosen base names in original input order (used to state the
collision-suffixing claims). -/
def chosenBases (bodies_data : List BodyData) (user_hint : String) :
    List String :=
  bodies_data.map
    (fun bd => select_best_name bd.properties
      (baseNamesFor bodies_data user_hint) (fun _ => 0))

/-- A 3D point of the host API (only coordinates are modelled). -/
structure Pt3 where
  x : ℚ
  y : ℚ
  z : ℚ

/-- A bounding box of the host API. -/
structure BBoxSource where
  minPoint : Pt3
  maxPoint : Pt3

/-- `body.physicalProperties`; each field is `none` when the host object
lacks the attribute (the `hasattr` probes of lines 47-49). -/
structure PhysSource where
  volume : Option ℚ := none
  area : Option ℚ := none
  mass : Option ℚ := none

/-- A host body record as `analyze_body_characteristics` consumes it.
`boundingBox`'s outer `Option` models `hasattr(body, 'boundingBox')`, the
inner one the truthiness test `if bbox:`; `faces` models
`body.faces.count`.  `raisesOn` models a property access raising an
exception somewhere inside the `try` block: when it is `some e`, the
`except` handler catches `e`. -/
structure HostBody where
  physicalProperties : Option PhysSource := none
  boundingBox : Option (Option BBoxSource) := none
  faces : Option Nat := none
  raisesOn : Option String := none

/-- The `{'error': str(e), 'analysis_failed': True}` dict of line 95. -/
def errorProps (e : String) : Props :=
  { error := some e, analysis_failed := some true }

def widthOf (bb : BBoxSource) : ℚ := |bb.maxPoint.x - bb.minPoint.x|

def heightOf (bb : BBoxSource) : ℚ := |bb.maxPoint.y - bb.minPoint.y|

def depthOf (bb : BBoxSource) : ℚ := |bb.maxPoint.z - bb.minPoint.z|

def maxDimOf (bb : BBoxSource) : ℚ :=
  max (widthOf bb) (max (heightOf bb) (depthOf bb))

def minDimOf (bb : BBoxSource) : ℚ :=
  min (widthOf bb) (min (heightOf bb) (depthOf bb))

/-- The aspect-ratio denominator of line 66:
`min(width, height, depth) + 0.001`. -/
def aspectDenominator (bb : BBoxSource) : ℚ := minDimOf bb + 1 / 1000

/-- The centroid computed on lines 80-82: `copy` of `minPoint`, translated
by `maxPoint.vectorTo(minPoint)` (= min − max), then scaled by `0.5`,
i.e. `(2·min − max) / 2` per coordinate. -/
def centerXOf (bb : BBoxSource) : ℚ := (2 * bb.minPoint.x - bb.maxPoint.x) / 2

def centerYOf (bb : BBoxSource) : ℚ := (2 * bb.minPoint.y - bb.maxPoint.y) / 2

def centerZOf (bb : BBoxSource) : ℚ := (2 * bb.minPoint.z - bb.maxPoint.z) / 2

/-- Line 76: `'simple' if face_count < 10 else 'complex' if face_count < 50
else 'very_complex'`. -/
def complexityOf (fc : Nat) : String :=
  if fc < 10 then "simple" else if fc < 50 then "complex" else "very_complex"

/-- `AdvancedBodyAnalyzer.analyze_body_characteristics` (lines 37-95).
Each `hasattr` guard that fails simply skips its `properties.update`,
leaving the corresponding keys absent; a raised exception is caught and
returns the error-marker dict. -/
def analyze_body_characteristics (body : HostBody) : Props :=
  match body.raisesOn with
  | some e => errorProps e
  | none =>
    let p0 : Props := {}
    let p1 : Props :=
      match body.physicalProperties with
      | none => p0
      | some pp =>
        { p0 with volume := some (pp.volume.getD 0),
                  area := some (pp.area.getD 0),
                  mass := some (pp.mass.getD 0) }
    let p2 : Props :=
      match body.boundingBox with
      | some (some bb) =>
        { p1 with width := some (widthOf bb), height := some (heightOf bb),
                  depth := some (depthOf bb),
                  max_dimension := some (maxDimOf bb),
                  min_dimension := some (minDimOf bb),
                  aspect_ratio := some (maxDimOf bb / aspectDenominator bb),
                  is_long_thin := some (decide (maxDimOf bb > 3 * minDimOf bb)),
                  is_cubic := some (decide
                    (|widthOf bb - heightOf bb| < (1 / 10) * widthOf bb ∧
                     |widthOf bb - depthOf bb| < (1 / 10) * widthOf bb)),
                  is_flat := some (decide
                    (minDimOf bb < (1 / 10) * maxDimOf bb)) }
      | _ => p1
    let p3 : Props :=
      match body.faces with
      | none => p2
      | some fc =>
        { p2 with face_count := some fc, complexity := some (complexityOf fc) }
    match body.boundingBox with
    | some (some bb) =>
      { p3 with center_x := some (centerXOf bb),
                center_y := some (centerYOf bb),
                center_z := some (centerZOf bb),
                is_centered := some (decide
                  (|centerXOf bb| < 1 ∧ |centerYOf bb| < 1)),
                quadrant := some
                  (if centerXOf bb > 0 ∧ centerYOf bb > 0 then "positive"
                   else "negative") }
    | _ => p3

/-- A 2D point of `geometry.py`. -/
structure GPoint where
  x : ℚ
  y : ℚ

/-- A line of `geometry.py`; the source field `end` is a Lean keyword and
is embedded as `endPoint`. -/
structure GLine where
  start : GPoint
  endPoint : GPoint

/-- The radicand of the denominator of `_point_to_line_distance`
(lines 65-66): the squared length of the line's direction vector.  The
source denominator is `sqrt` of this, which is zero exactly when this is. -/
def lineDenomSq (line : GLine) : ℚ :=
  (line.endPoint.y - line.start.y) ^ 2 + (line.endPoint.x - line.start.x) ^ 2

/-- The (absolute-value) numerator of `_point_to_line_distance`
(lines 61-64). -/
def lineNumerator (point : GPoint) (line : GLine) : ℚ :=
  |(line.endPoint.y - line.start.y) * point.x -
   (line.endPoint.x - line.start.x) * point.y +
   line.endPoint.x * line.start.y - line.endPoint.y * line.start.x|

/-- `GeometryManager._point_to_line_distance` (lines 60-67), with
`float('inf')` modelled as `none` and the returned magnitude by its square
(the source value is `numerator / sqrt(denomSq)`, whose square is
`numerator² / denomSq`; square roots of rationals are irrational in
general, and the guard `denominator != 0` is equivalent to
`denomSq ≠ 0`). -/
def point_to_line_distance (point : GPoint) (line : GLine) : Option ℚ :=
  if lineDenomSq line = 0 then none
  else some (lineNumerator point line ^ 2 / lineDenomSq line)

/-- A JSON value, modelling the document written by `json.dump` and read
back by `json.load` (which round-trip). -/
inductive JVal where
  | null : JVal
  | bool : Bool → JVal
  | num : ℚ → JVal
  | str : String → JVal
  | arr : List JVal → JVal
  | obj : List (String × JVal) → JVal

/-- Serialisation of one optional dict entry. -/
def optEntry (key : String) : Option JVal → List (String × JVal)
  | none => []
  | some j => [(key, j)]

/-- Serialisation of a `properties` dict, present keys only, in the
insertion order of `analyze_body_characteristics`. -/
def propsToJson (p : Props) : JVal :=
  .obj (optEntry "volume" (p.volume.map .num) ++
    optEntry "area" (p.area.map .num) ++
    optEntry "mass" (p.mass.map .num) ++
    optEntry "width" (p.width.map .num) ++
    optEntry "height" (p.height.map .num) ++
    optEntry "depth" (p.depth.map .num) ++
    optEntry "max_dimension" (p.max_dimension.map .num) ++
    optEntry "min_dimension" (p.min_dimension.map .num) ++
    optEntry "aspect_ratio" (p.aspect_ratio.map .num) ++
    optEntry "is_long_thin" (p.is_long_thin.map .bool) ++
    optEntry "is_cubic" (p.is_cubic.map .bool) ++
    optEntry "is_flat" (p.is_flat.map .bool) ++
    optEntry "face_count" (p.face_count.map (fun n => .num (n : ℚ))) ++
    optEntry "complexity" (p.complexity.map .str) ++
    optEntry "center_x" (p.center_x.map .num) ++
    optEntry "center_y" (p.center_y.map .num) ++
    optEntry "center_z" (p.center_z.map .num) ++
    optEntry "is_centered" (p.is_centered.map .bool) ++
    optEntry "quadrant" (p.quadrant.map .str) ++
    optEntry "error" (p.error.map .str) ++
    optEntry "analysis_failed" (p.analysis_failed.map .bool))

def CONFIG_VERSION : String := "2.0.0"

/-- One entry of the exported `naming_rules` list (lines 917-922). -/
def ruleOf (bd : BodyData) : JVal :=
  .obj [("original_name",
          match bd.name with | none => .null | some s => .str s),
        ("properties", propsToJson bd.properties),
        ("suggested_category", .str "auto-detected")]

/-- The file system visible to the export/import utilities: stored JSON
documents plus which paths can be opened for writing and reading (an
unwritable or unreadable path models the I/O errors that the `except`
clauses swallow). -/
structure FileStore where
  files : List (String × JVal)
  canWrite : String → Bool
  canRead : String → Bool

/-- `PowerUserUtils.export_naming_rules` (lines 907-929): build the rules
document and write it; any I/O failure returns `False` and leaves the
store unchanged. -/
def export_naming_rules (fs : FileStore) (bodies_data : List BodyData)
    (filename : String) (timestamp : ℚ) : FileStore × Bool :=
  let rules : JVal :=
    .obj [("version", .str CONFIG_VERSION),
          ("timestamp", .num timestamp),
          ("bodies_count", .num (bodies_data.length : ℚ)),
          ("naming_rules", .arr (bodies_data.map ruleOf))]
  if fs.canWrite filename then
    ({ fs with files := (filename, rules) :: fs.files }, true)
  else (fs, false)

/-- `PowerUserUtils.import_naming_rules` (lines 933-940): load the JSON
document; any failure (unreadable or missing file) returns the empty
mapping. -/
def import_naming_rules (fs : FileStore) (filename : String) : JVal :=
  if fs.canRead filename then
    match fs.files.lookup filename with
    | some j => j
    | none => .obj []
  else .obj []

/-- Key lookup in a JSON object (non-objects have no keys). -/
def jlookup (j : JVal) (key : String) : Option JVal :=
  match j with
  | .obj kvs => kvs.lookup key
  | _ => none

/-! ## Generic lemmas -/

/-- Characterisation of Python `max(..., key=f)` as modelled by `pickBy`:
the result is a member, every key is bounded by its key, and every element
strictly before its occurrence has a strictly smaller key (first maximiser
wins). -/
theorem pickBy_spec {α β : Type} [LinearOrder β] (f : α → β) :
    ∀ (l : List α) (p : α),
      pickBy f p l ∈ p :: l ∧ (∀ q ∈ p :: l, f q ≤ f (pickBy f p l)) ∧
      ∃ l₁ l₂, p :: l = l₁ ++ pickBy f p l :: l₂ ∧
        ∀ q ∈ l₁, f q < f (pickBy f p l) := by
  intro l
  induction l with
  | nil =>
      intro p
      exact ⟨List.mem_singleton_self p, by simp [pickBy], [], [],
        rfl, by simp⟩
  | cons a t ih =>
      intro p
      have hstep : pickBy f p (a :: t) =
          pickBy f (if f p < f a then a else p) t := rfl
      by_cases hpa : f p < f a
      · rw [if_pos hpa] at hstep
        obtain ⟨hmem, hub, l₁, l₂, hdec, hlt⟩ := ih a
        rw [hstep]
        have hra : f a ≤ f (pickBy f a t) := hub a (List.mem_cons_self a t)
        refine ⟨List.mem_cons_of_mem p hmem, ?_, p :: l₁, l₂, ?_, ?_⟩
        · intro q hq
          rcases List.mem_cons.mp hq with rfl | hq'
          · exact le_of_lt (lt_of_lt_of_le hpa hra)
          · exact hub q hq'
        · rw [List.cons_append, ← hdec]
        · intro q hq
          rcases List.mem_cons.mp hq with rfl | hq'
          · exact lt_of_lt_of_le hpa hra
          · exact hlt q hq'
      · rw [if_neg hpa] at hstep
        obtain ⟨hmem, hub, l₁, l₂, hdec, hlt⟩ := ih p
        rw [hstep]
        have hap : f a ≤ f p := le_of_not_lt hpa
        have hrp : f p ≤ f (pickBy f p t) := hub p (List.mem_cons_self p t)
        refine ⟨?_, ?_, ?_⟩
        · rcases List.mem_cons.mp hmem with h | h
          · rw [h]; exact List.mem_cons_self p (a :: t)
          · exact List.mem_cons_of_mem p (List.mem_cons_of_mem a h)
        · intro q hq
          rcases List.mem_cons.mp hq with rfl | hq'
          · exact hrp
          rcases List.mem_cons.mp hq' with rfl | hq''
          · exact le_trans hap hrp
          · exact hub q (List.mem_cons_of_mem p hq'')
        · cases l₁ with
          | nil =>
              have hr : pickBy f p t = p := by
                have := hdec
                simp only [List.nil_append] at this
                exact (List.cons.injEq _ _ _ _ ▸ this).1.symm
              exact ⟨[], a :: t, by rw [hr]; simp, by simp⟩
          | cons x l₁' =>
              have hx : x = p ∧ t = l₁' ++ pickBy f p t :: l₂ := by
                have := hdec
                simp only [List.cons_append] at this
                exact ⟨((List.cons.injEq _ _ _ _ ▸ this).1).symm,
                  (List.cons.injEq _ _ _ _ ▸ this).2⟩
              have hpr : f p < f (pickBy f p t) := by
                have := hlt x (List.mem_cons_self x l₁')
                rwa [hx.1] at this
              refine ⟨p :: a :: l₁', l₂, ?_, ?_⟩
              · simp only [List.cons_append]
                rw [← hx.2]
              · intro q hq
                rcases List.mem_cons.mp hq with rfl | hq'
                · exact hpr
                rcases List.mem_cons.mp hq' with rfl | hq''
                · exact lt_of_le_of_lt hap hpr
                · exact hlt q (hx.1 ▸ List.mem_cons_of_mem x hq'')

/-! ## Context classifier: spec-side weights and the argmax lemma -/

/-- Modelled from the claim's words: the fixed integer weight each
descriptor adds to each of the five accumulators
(size thresholds `>1000`, `<10`, the open `50–500` bucket, and the three
shape tests). -/
def specWeights (p : Props) : CtxScores :=
  let md := p.max_dimension.getD 0
  { mechanical := (if md < 10 then 1 else 0) +
      (if 50 < md ∧ md < 500 then 1 else 0) +
      (if p.is_long_thin.getD false then 1 else 0),
    automotive := (if 50 < md ∧ md < 500 then 1 else 0) +
      (if p.face_count.getD 0 > 20 then 1 else 0),
    electronics := (if md < 10 then 2 else 0) +
      (if p.is_flat.getD false then 1 else 0),
    furniture := (if 50 < md ∧ md < 500 then 1 else 0) +
      (if p.is_flat.getD false then 1 else 0),
    architecture := if md > 1000 then 2 else 0 }

/-- The source's `elif` chain on disjoint size buckets adds exactly the
claim's independent weights. -/
theorem contextContrib_eq_specWeights (p : Props) :
    contextContrib p = specWeights p := by
  unfold contextContrib specWeights
  ext <;> dsimp only <;> split_ifs <;> first | rfl | omega | linarith

/-- Sum of one accumulator over a batch, with the claim's weights. -/
def specTotal (bodies_data : List BodyData) (g : CtxScores → Nat) : Nat :=
  (bodies_data.map (fun bd => g (specWeights bd.properties))).sum

/-- The five `(label, total weight)` pairs in declaration order. -/
def specPairs (bodies_data : List BodyData) : List (String × Nat) :=
  [("mechanical", specTotal bodies_data CtxScores.mechanical),
   ("automotive", specTotal bodies_data CtxScores.automotive),
   ("electronics", specTotal bodies_data CtxScores.electronics),
   ("furniture", specTotal bodies_data CtxScores.furniture),
   ("architecture", specTotal bodies_data CtxScores.architecture)]

theorem foldl_addCtx_proj (g : CtxScores → Nat)
    (hg : ∀ c d, g (addCtx c d) = g c + g d) :
    ∀ (l : List BodyData) (c : CtxScores),
      g (l.foldl (fun acc bd => addCtx acc (contextContrib bd.properties)) c) =
      g c + (l.map (fun bd => g (contextContrib bd.properties))).sum := by
  intro l
  induction l with
  | nil => intro c; simp
  | cons bd t ih =>
      intro c
      simp only [List.foldl_cons, List.map_cons, List.sum_cons, ih, hg]
      omega

theorem accumulate_eq_specTotal (bodies_data : List BodyData)
    (g : CtxScores → Nat) (hg : ∀ c d, g (addCtx c d) = g c + g d)
    (hz : g ctxZero = 0) :
    g (accumulateContexts bodies_data) = specTotal bodies_data g := by
  unfold accumulateContexts specTotal
  rw [foldl_addCtx_proj g hg, hz]
  simp only [contextContrib_eq_specWeights, Nat.zero_add]

theorem contextPairs_accumulate (bodies_data : List BodyData) :
    contextPairs (accumulateContexts bodies_data) = specPairs bodies_data := by
  unfold contextPairs specPairs
  rw [accumulate_eq_specTotal bodies_data CtxScores.mechanical
        (fun _ _ => rfl) rfl,
      accumulate_eq_specTotal bodies_data CtxScores.automotive
        (fun _ _ => rfl) rfl,
      accumulate_eq_specTotal bodies_data CtxScores.electronics
        (fun _ _ => rfl) rfl,
      accumulate_eq_specTotal bodies_data CtxScores.furniture
        (fun _ _ => rfl) rfl,
      accumulate_eq_specTotal bodies_data CtxScores.architecture
        (fun _ _ => rfl) rfl]

/-- C1: for every descriptor list, `analyze_design_context` accumulates
exactly the claim's fixed integer weights (`specWeights`, summed to
`specPairs`) and returns the label of the first pair, in the declaration
order mechanical, automotive, electronics, furniture, architecture, whose
accumulator attains the maximum (first-declared wins on ties); the empty
list gives "general".  The `50–500` bucket is the source's strict
`50 < max_dimension < 500`. -/
theorem analyze_design_context_spec :
    ∀ bodies_data : List BodyData,
      (bodies_data = [] → analyze_design_context bodies_data = "general") ∧
      (bodies_data ≠ [] →
        ∃ w pre post,
          specPairs bodies_data =
            pre ++ (analyze_design_context bodies_data, w) :: post ∧
          (∀ q ∈ specPairs bodies_data, q.2 ≤ w) ∧
          (∀ q ∈ pre, q.2 < w)) := by
  intro bodies_data
  constructor
  · rintro rfl; rfl
  · intro hne
    match bodies_data, hne with
    | b :: bs, _ =>
      obtain ⟨hmem, hub, l₁, l₂, hdec, hlt⟩ :=
        pickBy_spec (Prod.snd (α := String) (β := Nat))
          [("automotive", (accumulateContexts (b :: bs)).automotive),
           ("electronics", (accumulateContexts (b :: bs)).electronics),
           ("furniture", (accumulateContexts (b :: bs)).furniture),
           ("architecture", (accumulateContexts (b :: bs)).architecture)]
          ("mechanical", (accumulateContexts (b :: bs)).mechanical)
      refine ⟨_, l₁, l₂, ?_, ?_, hlt⟩
      · rw [← contextPairs_accumulate]
        show contextPairs (accumulateContexts (b :: bs)) =
          l₁ ++ (analyze_design_context (b :: bs), _) :: l₂
        rw [show (analyze_design_context (b :: bs), _) = _ from
          Prod.mk.eta]
        exact hdec
      · rw [← contextPairs_accumulate]
        exact hub

/-- A descriptor with a given `max_dimension`, no shape flags and a face
count of 0, as in the spec's worked example. -/
def bdOfMax (q : ℚ) : BodyData :=
  { properties := { max_dimension := some q, is_long_thin := some false,
                    is_flat := some false, face_count := some 0 } }

/-- The spec example's batch: `max_dimension` 5, 60 and 1200. -/
def exampleBatch : List BodyData := [bdOfMax 5, bdOfMax 60, bdOfMax 1200]

/-- C1 witness: the empty batch classifies as "general", and on the
example batch the returned label is a first-declared maximiser of the
spec-weight totals. -/
theorem analyze_design_context_spec_witness :
    analyze_design_context [] = "general" ∧
    (∃ w pre post,
      specPairs exampleBatch =
        pre ++ (analyze_design_context exampleBatch, w) :: post ∧
      (∀ q ∈ specPairs exampleBatch, q.2 ≤ w) ∧
      (∀ q ∈ pre, q.2 < w)) :=
  ⟨(analyze_design_context_spec []).1 rfl,
   (analyze_design_context_spec exampleBatch).2 (List.cons_ne_nil _ _)⟩

/-- C2 counterexample: on the batch with `max_dimension` 5, 60 and 1200 and
no shape flags, `analyze_design_context` does not return "architecture"
(the claim asserts it does): the totals tie at 2 between mechanical,
electronics and architecture and the dict-order tie-break picks
mechanical. -/
theorem analyze_example_not_architecture :
    analyze_design_context exampleBatch ≠ "architecture" := by decide

/-- C2 amended: the batch with `max_dimension` 5, 60 and 1200 and no shape
flags classifies as "mechanical" — the accumulators are mechanical 2,
automotive 1, electronics 2, furniture 1, architecture 2, and the
three-way tie at 2 is broken to the first-declared "mechanical". -/
theorem analyze_example_mechanical :
    analyze_design_context exampleBatch = "mechanical" := by decide

theorem perm_sum_nat : ∀ {l₁ l₂ : List Nat}, l₁.Perm l₂ → l₁.sum = l₂.sum := by
  intro l₁ l₂ h
  induction h with
  | nil => rfl
  | cons x _ ih => simp only [List.sum_cons, ih]
  | swap x y l => simp only [List.sum_cons]; omega
  | trans _ _ ih₁ ih₂ => exact ih₁.trans ih₂

theorem specTotal_perm {l₁ l₂ : List BodyData} (h : l₁.Perm l₂)
    (g : CtxScores → Nat) : specTotal l₁ g = specTotal l₂ g := by
  unfold specTotal
  exact perm_sum_nat (List.Perm.map _ h)

theorem accumulateContexts_perm {l₁ l₂ : List BodyData} (h : l₁.Perm l₂) :
    accumulateContexts l₁ = accumulateContexts l₂ := by
  have hsum : ∀ g : CtxScores → Nat, (∀ c d, g (addCtx c d) = g c + g d) →
      g ctxZero = 0 → g (accumulateContexts l₁) = g (accumulateContexts l₂) := by
    intro g hg hz
    rw [accumulate_eq_specTotal l₁ g hg hz, accumulate_eq_specTotal l₂ g hg hz]
    exact specTotal_perm h g
  ext
  · exact hsum CtxScores.mechanical (fun _ _ => rfl) rfl
  · exact hsum CtxScores.automotive (fun _ _ => rfl) rfl
  · exact hsum CtxScores.electronics (fun _ _ => rfl) rfl
  · exact hsum CtxScores.furniture (fun _ _ => rfl) rfl
  · exact hsum CtxScores.architecture (fun _ _ => rfl) rfl

/-- C3: `analyze_design_context` is a pure function of its input list
(being a Lean function) and is invariant under every permutation of the
batch, because the weight accumulation is commutative. -/
theorem analyze_design_context_perm_invariant :
    ∀ l₁ l₂ : List BodyData, l₁.Perm l₂ →
      analyze_design_context l₁ = analyze_design_context l₂ := by
  intro l₁ l₂ h
  cases l₁ with
  | nil =>
      rw [h.symm.eq_nil]
  | cons a t =>
      cases l₂ with
      | nil => exact absurd h.eq_nil (List.cons_ne_nil a t)
      | cons b s =>
          show contextMaxKey _ = contextMaxKey _
          rw [accumulateContexts_perm h]

/-- C3 witness: swapping the two descriptors of a concrete batch leaves
the classification unchanged. -/
theorem analyze_perm_invariant_witness :
    analyze_design_context [bdOfMax 5, bdOfMax 1200] =
    analyze_design_context [bdOfMax 1200, bdOfMax 5] :=
  analyze_design_context_perm_invariant _ _ (List.Perm.swap _ _ _)

/-! ## Decimal digits of `Nat.repr` -/

theorem digitChar_isDigit (m : Nat) (h : m < 10) :
    (Nat.digitChar m).isDigit = true := by
  interval_cases m <;> decide

theorem toDigitsCore_succ (f n : Nat) (acc : List Char) :
    Nat.toDigitsCore 10 (f + 1) n acc =
      if n / 10 = 0 then Nat.digitChar (n % 10) :: acc
      else Nat.toDigitsCore 10 f (n / 10) (Nat.digitChar (n % 10) :: acc) := by
  rw [Nat.toDigitsCore.eq_def]

theorem toDigitsCore_zero (n : Nat) (acc : List Char) :
    Nat.toDigitsCore 10 0 n acc = acc := by
  rw [Nat.toDigitsCore.eq_def]

theorem toDigitsCore_digits :
    ∀ (fuel n : Nat) (acc : List Char), (∀ c ∈ acc, c.isDigit = true) →
      ∀ c ∈ Nat.toDigitsCore 10 fuel n acc, c.isDigit = true := by
  intro fuel
  induction fuel with
  | zero =>
      intro n acc hacc c hc
      rw [toDigitsCore_zero] at hc
      exact hacc c hc
  | succ f ih =>
      intro n acc hacc c hc
      rw [toDigitsCore_succ] at hc
      have hd : (Nat.digitChar (n % 10)).isDigit = true :=
        digitChar_isDigit _ (Nat.mod_lt _ (by norm_num))
      have hacc' : ∀ c ∈ Nat.digitChar (n % 10) :: acc, c.isDigit = true := by
        intro c' hc'
        rcases List.mem_cons.mp hc' with rfl | h
        · exact hd
        · exact hacc c' h
      by_cases h0 : n / 10 = 0
      · rw [if_pos h0] at hc
        exact hacc' c hc
      · rw [if_neg h0] at hc
        exact ih (n / 10) _ hacc' c hc

theorem toDigitsCore_ne_nil :
    ∀ (fuel n : Nat) (acc : List Char), acc ≠ [] →
      Nat.toDigitsCore 10 fuel n acc ≠ [] := by
  intro fuel
  induction fuel with
  | zero =>
      intro n acc hacc
      rw [toDigitsCore_zero]
      exact hacc
  | succ f ih =>
      intro n acc hacc
      rw [toDigitsCore_succ]
      by_cases h0 : n / 10 = 0
      · rw [if_pos h0]
        exact List.cons_ne_nil _ _
      · rw [if_neg h0]
        exact ih (n / 10) _ (List.cons_ne_nil _ _)

theorem repr_data_ne_nil (k : Nat) : (Nat.repr k).data ≠ [] := by
  show Nat.toDigits 10 k ≠ []
  unfold Nat.toDigits
  rw [toDigitsCore_succ]
  by_cases h0 : k / 10 = 0
  · rw [if_pos h0]
    exact List.cons_ne_nil _ _
  · rw [if_neg h0]
    exact toDigitsCore_ne_nil _ _ _ (List.cons_ne_nil _ _)

theorem repr_data_digits (k : Nat) :
    ∀ c ∈ (Nat.repr k).data, c.isDigit = true := by
  show ∀ c ∈ Nat.toDigits 10 k, c.isDigit = true
  exact toDigitsCore_digits _ _ [] (by intro c hc; exact absurd hc (List.not_mem_nil c))

/-- A candidate name whose characters contain no decimal digit is never
equal to any string of the shape `c ++ " " ++ Nat.repr k`. -/
theorem candidate_ne_suffixed {b c : String} (k : Nat)
    (hb : ∀ ch ∈ b.data, ch.isDigit = false) :
    b ≠ c ++ " " ++ Nat.repr k := by
  intro he
  have hd : b.data = c.data ++ (' ' :: (Nat.repr k).data) := by
    have hsp : (" " : String).data = [' '] := by decide
    rw [he, String.data_append, String.data_append, hsp, List.append_assoc,
      List.singleton_append]
  obtain ⟨ch, hch⟩ := List.exists_mem_of_ne_nil _ (repr_data_ne_nil k)
  have h1 : ch.isDigit = true := repr_data_digits k ch hch
  have h2 : ch ∈ b.data := by
    rw [hd]
    exact List.mem_append_right _ (List.mem_cons_of_mem _ hch)
  rw [hb ch h2] at h1
  exact Bool.false_ne_true h1

/-! ## The candidate lists are nonempty and digit-free -/

/-- Sanity property of a candidate list: nonempty, and no candidate
contains a decimal digit. -/
def goodNameList (l : List String) : Bool :=
  !l.isEmpty && l.all (fun s => s.data.all (fun ch => !ch.isDigit))

theorem lookup_mem_of_eq_some :
    ∀ (table : List (String × List String)) (key : String) (v : List String),
      table.lookup key = some v → ∃ kv ∈ table, kv.2 = v := by
  intro table
  induction table with
  | nil => intro key v h; exact absurd h (by simp [List.lookup])
  | cons kv t ih =>
      intro key v h
      obtain ⟨k1, v1⟩ := kv
      cases hbeq : (key == k1) with
      | true =>
          simp only [List.lookup, hbeq, Option.some.injEq] at h
          exact ⟨(k1, v1), List.mem_cons_self _ t, h⟩
      | false =>
          simp only [List.lookup, hbeq] at h
          obtain ⟨kv', hkv', hv⟩ := ih key v h
          exact ⟨kv', List.mem_cons_of_mem _ hkv', hv⟩

theorem lookupD_cases (table : List (String × List String)) (key : String)
    (dflt : List String) :
    lookupD table key dflt = dflt ∨
    ∃ kv ∈ table, lookupD table key dflt = kv.2 := by
  unfold lookupD
  cases hl : table.lookup key with
  | none => exact Or.inl rfl
  | some v =>
      obtain ⟨kv, hkv, hv⟩ := lookup_mem_of_eq_some table key v hl
      exact Or.inr ⟨kv, hkv, hv.symm⟩

theorem naming_patterns_good : ∀ kv ∈ naming_patterns, goodNameList kv.2 = true := by
  intro kv hkv
  simp only [naming_patterns, List.mem_cons, List.not_mem_nil, or_false] at hkv
  rcases hkv with rfl | rfl | rfl | rfl | rfl | rfl | rfl <;> decide

theorem mechanical_basic_good : goodNameList mechanical_basic = true := by decide

theorem baseNamesFor_good (bodies_data : List BodyData) (user_hint : String) :
    goodNameList (baseNamesFor bodies_data user_hint) = true := by
  unfold baseNamesFor
  rcases lookupD_cases naming_patterns
      (process_user_hint user_hint (analyze_design_context bodies_data))
      (lookupD naming_patterns (analyze_design_context bodies_data ++ "_basic")
        mechanical_basic) with h | ⟨kv, hkv, h⟩
  · rw [h]
    rcases lookupD_cases naming_patterns
        (analyze_design_context bodies_data ++ "_basic")
        mechanical_basic with h2 | ⟨kv2, hkv2, h2⟩
    · rw [h2]; exact mechanical_basic_good
    · rw [h2]; exact naming_patterns_good kv2 hkv2
  · rw [h]; exact naming_patterns_good kv hkv

theorem baseNamesFor_ne_nil (bodies_data : List BodyData) (user_hint : String) :
    baseNamesFor bodies_data user_hint ≠ [] := by
  have h := baseNamesFor_good bodies_data user_hint
  unfold goodNameList at h
  intro he
  rw [he] at h
  exact Bool.false_ne_true h

theorem baseNamesFor_noDigit (bodies_data : List BodyData) (user_hint : String) :
    ∀ s ∈ baseNamesFor bodies_data user_hint, ∀ ch ∈ s.data,
      ch.isDigit = false := by
  have h := baseNamesFor_good bodies_data user_hint
  unfold goodNameList at h
  rw [Bool.and_eq_true, List.all_eq_true] at h
  intro s hs ch hch
  have := h.2 s hs
  rw [List.all_eq_true] at this
  have := this ch hch
  rwa [Bool.not_eq_true'] at this

/-! ## Sort-order facts -/

theorem keyLE_trans : ∀ a b c : Nat × BodyData,
    keyLE a b = true → keyLE b c = true → keyLE a c = true := by
  intro a b c hab hbc
  simp only [keyLE, decide_eq_true_eq] at hab hbc ⊢
  rcases hab with h | ⟨h1, h2⟩ <;> rcases hbc with h' | ⟨h1', h2'⟩
  · exact Or.inl (lt_trans h h')
  · exact Or.inl (h1' ▸ h)
  · exact Or.inl (lt_of_le_of_lt (le_of_eq h1) h')
  · exact Or.inr ⟨h1.trans h1', le_trans h2 h2'⟩

theorem keyLE_total : ∀ a b : Nat × BodyData,
    (keyLE a b || keyLE b a) = true := by
  intro a b
  simp only [keyLE, Bool.or_eq_true, decide_eq_true_eq]
  rcases lt_trichotomy (bodyKey a).1 (bodyKey b).1 with h | h | h
  · exact Or.inl (Or.inl h)
  · rcases le_total (bodyKey a).2 (bodyKey b).2 with h2 | h2
    · exact Or.inl (Or.inr ⟨h, h2⟩)
    · exact Or.inr (Or.inr ⟨h.symm, h2⟩)
  · exact Or.inr (Or.inl h)

theorem idxLE_trans {α : Type} : ∀ a b c : Nat × α,
    idxLE a b = true → idxLE b c = true → idxLE a c = true := by
  intro a b c hab hbc
  simp only [idxLE, decide_eq_true_eq] at hab hbc ⊢
  omega

theorem idxLE_total {α : Type} : ∀ a b : Nat × α,
    (idxLE a b || idxLE b a) = true := by
  intro a b
  simp only [idxLE, Bool.or_eq_true, decide_eq_true_eq]
  omega

theorem enumF_length {α : Type} : ∀ (l : List α) (s : Nat),
    (enumF s l).length = l.length := by
  intro l
  induction l with
  | nil => intro s; rfl
  | cons a t ih => intro s; simp [enumF, ih]

theorem enumF_map_fst {α : Type} : ∀ (l : List α) (s : Nat),
    (enumF s l).map Prod.fst = List.range' s l.length := by
  intro l
  induction l with
  | nil => intro s; rfl
  | cons a t ih =>
      intro s
      simp only [enumF, List.map_cons, List.length_cons, List.range'_succ]
      rw [ih]

theorem enumF_map_snd {α : Type} : ∀ (l : List α) (s : Nat),
    (enumF s l).map Prod.snd = l := by
  intro l
  induction l with
  | nil => intro s; rfl
  | cons a t ih => intro s; simp only [enumF, List.map_cons, ih]

theorem enumF_mem {α : Type} : ∀ (l : List α) (s : Nat) (p : Nat × α),
    p ∈ enumF s l → ∃ j, ∃ h : j < l.length, p.1 = s + j ∧ l[j] = p.2 := by
  intro l
  induction l with
  | nil => intro s p hp; exact absurd hp (List.not_mem_nil p)
  | cons a t ih =>
      intro s p hp
      rcases List.mem_cons.mp hp with rfl | hp'
      · exact ⟨0, Nat.succ_pos _, by omega, rfl⟩
      · obtain ⟨j, hj, h1, h2⟩ := ih (s + 1) p hp'
        exact ⟨j + 1, by simpa using hj, by omega, by simpa using h2⟩

/-! ## Name-selector and naming-loop facts -/

theorem select_best_name_mem (props : Props) (base_names : List String)
    (u : String → Nat) (h : base_names ≠ []) :
    select_best_name props base_names u ∈ base_names := by
  match base_names, h with
  | h' :: t, _ =>
    show (if props.isEmptyDict = true then h'
      else pickBy (nameScore props) h' t) ∈ h' :: t
    by_cases he : props.isEmptyDict = true
    · rw [if_pos he]; exact List.mem_cons_self h' t
    · rw [if_neg he]; exact (pickBy_spec (nameScore props) t h').1

theorem nameLoop_length (bn ac : List String) :
    ∀ (l : List (Nat × BodyData)) (c : String → Nat),
      (nameLoop bn ac c l).length = l.length := by
  intro l
  induction l with
  | nil => intro c; rfl
  | cons p rest ih => intro c; simp [nameLoop, ih]

theorem nameLoop_map_fst (bn ac : List String) :
    ∀ (l : List (Nat × BodyData)) (c : String → Nat),
      (nameLoop bn ac c l).map Prod.fst = l.map Prod.fst := by
  intro l
  induction l with
  | nil => intro c; rfl
  | cons p rest ih => intro c; simp [nameLoop, ih]

theorem nameLoop_mem_form (bn ac : List String) :
    ∀ (l : List (Nat × BodyData)) (c : String → Nat)
      (pr : Nat × String), pr ∈ nameLoop bn ac c l →
      ∃ p ∈ l, pr.1 = p.1 ∧
        ((ac.count (chosenName bn p) ≤ 1 ∧ pr.2 = chosenName bn p) ∨
         (1 < ac.count (chosenName bn p) ∧
          ∃ k, 1 ≤ k ∧ pr.2 = chosenName bn p ++ " " ++ Nat.repr k)) := by
  intro l
  induction l with
  | nil => intro c pr hpr; exact absurd hpr (List.not_mem_nil pr)
  | cons p rest ih =>
      intro c pr hpr
      rw [nameLoop] at hpr
      rcases List.mem_cons.mp hpr with rfl | h
      · have hsel : select_best_name p.2.properties bn c = chosenName bn p := rfl
        refine ⟨p, List.mem_cons_self p rest, rfl, ?_⟩
        by_cases hc : 1 < ac.count (chosenName bn p)
        · refine Or.inr ⟨hc, c (chosenName bn p) + 1, by omega, ?_⟩
          simp [hsel, hc, bump]
        · refine Or.inl ⟨le_of_not_lt hc, ?_⟩
          simp [hsel, hc]
      · obtain ⟨q, hq, h1, h2⟩ := ih _ pr h
        exact ⟨q, List.mem_cons_of_mem p hq, h1, h2⟩

theorem nameLoop_all_bare (bn ac : List String) :
    ∀ (l : List (Nat × BodyData)) (c : String → Nat),
      (∀ p ∈ l, ac.count (chosenName bn p) ≤ 1) →
      nameLoop bn ac c l = l.map (fun p => (p.1, chosenName bn p)) := by
  intro l
  induction l with
  | nil => intro c _; rfl
  | cons p rest ih =>
      intro c hle
      rw [nameLoop, List.map_cons]
      have hsel : select_best_name p.2.properties bn c = chosenName bn p := rfl
      have hp := hle p (List.mem_cons_self p rest)
      rw [hsel, if_neg (not_lt.mpr hp)]
      rw [ih _ (fun q hq => hle q (List.mem_cons_of_mem p hq))]

theorem nameLoop_suffix_mem (bn ac : List String) :
    ∀ (l : List (Nat × BodyData)) (c : String → Nat) (b : String),
      1 < ac.count b →
      ∀ i, i < (l.map (chosenName bn)).count b →
        (b ++ " " ++ Nat.repr (c b + i + 1)) ∈
          (nameLoop bn ac c l).map Prod.snd := by
  intro l
  induction l with
  | nil => intro c b _ i hi; simp at hi
  | cons p rest ih =>
      intro c b hb i hi
      rw [nameLoop, List.map_cons]
      by_cases hpb : chosenName bn p = b
      · have hcount : (List.map (chosenName bn) (p :: rest)).count b =
            (List.map (chosenName bn) rest).count b + 1 := by
          simp [List.count_cons, hpb]
        cases i with
        | zero =>
            apply List.mem_cons.mpr
            left
            have hsel : select_best_name p.2.properties bn c =
              chosenName bn p := rfl
            simp [hsel, hpb, hb, bump]
        | succ j =>
            have hj : j < (List.map (chosenName bn) rest).count b := by
              rw [hcount] at hi; omega
            have := ih (bump c (chosenName bn p)) b hb j hj
            have hbump : bump c (chosenName bn p) b = c b + 1 := by
              simp [bump, hpb]
            rw [hbump] at this
            have harg : c b + 1 + j + 1 = c b + (j + 1) + 1 := by omega
            rw [harg] at this
            exact List.mem_cons_of_mem _ this
      · have hcount : (List.map (chosenName bn) (p :: rest)).count b =
            (List.map (chosenName bn) rest).count b := by
          simp [List.count_cons, hpb]
        have hj : i < (List.map (chosenName bn) rest).count b := by
          rw [hcount] at hi; exact hi
        have := ih (bump c (chosenName bn p)) b hb i hj
        have hbump : bump c (chosenName bn p) b = c b := by
          rw [bump, if_neg (fun he => hpb he.symm)]
        rw [hbump] at this
        exact List.mem_cons_of_mem _ this

/-! ## Relating the generated list to the naming loop -/

theorem sortedBodiesOf_perm (bodies_data : List BodyData) :
    (sortedBodiesOf bodies_data).Perm (enumF 0 bodies_data) :=
  List.mergeSort_perm _ _

theorem sortedBodiesOf_sorted (bodies_data : List BodyData) :
    List.Pairwise (fun p q => keyLE p q = true) (sortedBodiesOf bodies_data) :=
  List.sorted_mergeSort keyLE_trans keyLE_total _

theorem generate_length (bodies_data : List BodyData) (user_hint : String) :
    (generate_intelligent_names bodies_data user_hint).length =
      bodies_data.length := by
  cases bodies_data with
  | nil => rfl
  | cons b bs =>
      show (((nameLoopOf (b :: bs) user_hint).mergeSort idxLE).map
        Prod.snd).length = _
      rw [List.length_map, (List.mergeSort_perm _ _).length_eq, nameLoopOf,
        nameLoop_length, sortedBodiesOf, (List.mergeSort_perm _ _).length_eq,
        enumF_length]

theorem backSorted_fst (bodies_data : List BodyData) (user_hint : String) :
    ((nameLoopOf bodies_data user_hint).mergeSort idxLE).map Prod.fst =
      List.range bodies_data.length := by
  have h1 : (((nameLoopOf bodies_data user_hint).mergeSort idxLE).map
      Prod.fst).Perm ((nameLoopOf bodies_data user_hint).map Prod.fst) :=
    (List.mergeSort_perm _ _).map _
  have h2 : (nameLoopOf bodies_data user_hint).map Prod.fst =
      (sortedBodiesOf bodies_data).map Prod.fst := by
    rw [nameLoopOf]
    exact nameLoop_map_fst _ _ _ _
  have h3 : ((sortedBodiesOf bodies_data).map Prod.fst).Perm
      ((enumF 0 bodies_data).map Prod.fst) :=
    (sortedBodiesOf_perm bodies_data).map _
  have h4 : (enumF 0 bodies_data).map Prod.fst =
      List.range bodies_data.length := by
    rw [enumF_map_fst, ← List.range_eq_range']
  have hperm : (((nameLoopOf bodies_data user_hint).mergeSort idxLE).map
      Prod.fst).Perm (List.range bodies_data.length) := by
    rw [← h4]
    rw [h2] at h1
    exact h1.trans h3
  have hsorted : List.Sorted (fun a b : Nat => a ≤ b)
      (((nameLoopOf bodies_data user_hint).mergeSort idxLE).map Prod.fst) := by
    have hp := List.sorted_mergeSort idxLE_trans idxLE_total
      (nameLoopOf bodies_data user_hint)
    exact List.Pairwise.map Prod.fst (fun a b h => by simpa [idxLE] using h) hp
  exact List.eq_of_perm_of_sorted hperm hsorted (List.sorted_le_range _)

theorem generate_getElem_mem (bodies_data : List BodyData)
    (user_hint : String) (hne : bodies_data ≠ []) :
    ∀ i (hi : i < (generate_intelligent_names bodies_data user_hint).length),
      (i, (generate_intelligent_names bodies_data user_hint)[i]) ∈
        nameLoopOf bodies_data user_hint := by
  match bodies_data, hne with
  | b :: bs, _ =>
    intro i hi
    have hiS : i < ((nameLoopOf (b :: bs) user_hint).mergeSort idxLE).length := by
      have hgen : generate_intelligent_names (b :: bs) user_hint =
          ((nameLoopOf (b :: bs) user_hint).mergeSort idxLE).map Prod.snd := rfl
      rw [hgen, List.length_map] at hi
      exact hi
    have hsnd : (generate_intelligent_names (b :: bs) user_hint)[i] =
        ((nameLoopOf (b :: bs) user_hint).mergeSort idxLE)[i].2 := by
      show (((nameLoopOf (b :: bs) user_hint).mergeSort idxLE).map
        Prod.snd)[i] = _
      exact List.getElem_map Prod.snd
    have hb1 : i < (((nameLoopOf (b :: bs) user_hint).mergeSort idxLE).map
        Prod.fst).length := by
      rw [List.length_map]
      exact hiS
    have hfst : ((nameLoopOf (b :: bs) user_hint).mergeSort idxLE)[i].1 = i := by
      have e1 : (((nameLoopOf (b :: bs) user_hint).mergeSort idxLE).map
          Prod.fst)[i] =
          ((nameLoopOf (b :: bs) user_hint).mergeSort idxLE)[i].1 :=
        List.getElem_map Prod.fst
      rw [← e1]
      simp [backSorted_fst (b :: bs) user_hint]
    have hpair : (i, (generate_intelligent_names (b :: bs) user_hint)[i]) =
        ((nameLoopOf (b :: bs) user_hint).mergeSort idxLE)[i] :=
      Prod.ext hfst.symm hsnd
    rw [hpair]
    exact ((List.mergeSort_perm _ _).mem_iff).mp (List.getElem_mem hiS)

theorem generate_mem_iff (bodies_data : List BodyData) (user_hint : String)
    (hne : bodies_data ≠ []) (s : String) :
    s ∈ generate_intelligent_names bodies_data user_hint ↔
      s ∈ (nameLoopOf bodies_data user_hint).map Prod.snd := by
  match bodies_data, hne with
  | b :: bs, _ =>
    show s ∈ ((nameLoopOf (b :: bs) user_hint).mergeSort idxLE).map Prod.snd ↔ _
    exact ((List.mergeSort_perm _ _).map Prod.snd).mem_iff

theorem enumF_map_chosen (bn : List String) :
    ∀ (l : List BodyData) (s : Nat),
      (enumF s l).map (chosenName bn) =
        l.map (fun bd => select_best_name bd.properties bn (fun _ => 0)) := by
  intro l
  induction l with
  | nil => intro s; rfl
  | cons a t ih =>
      intro s
      simp only [enumF, List.map_cons, ih, chosenName]

theorem allChosen_count (bodies_data : List BodyData) (user_hint : String)
    (b : String) :
    (allChosenOf bodies_data user_hint).count b =
      (chosenBases bodies_data user_hint).count b := by
  have hperm : (allChosenOf bodies_data user_hint).Perm
      ((enumF 0 bodies_data).map
        (chosenName (baseNamesFor bodies_data user_hint))) :=
    (sortedBodiesOf_perm bodies_data).map _
  have heq : (enumF 0 bodies_data).map
      (chosenName (baseNamesFor bodies_data user_hint)) =
      chosenBases bodies_data user_hint := by
    rw [chosenBases]
    exact enumF_map_chosen (baseNamesFor bodies_data user_hint) bodies_data 0
  rw [← heq]
  exact hperm.count_eq b

/-- C10: `generate_intelligent_names` returns exactly one name per input
body (the empty list for empty input), and every returned name is an
element of the selected candidate list `baseNamesFor`, optionally extended
by a space and a positive integer suffix. -/
theorem generate_names_shape :
    ∀ (bodies_data : List BodyData) (user_hint : String),
      (generate_intelligent_names bodies_data user_hint).length =
        bodies_data.length ∧
      ∀ s ∈ generate_intelligent_names bodies_data user_hint,
        ∃ b, b ∈ baseNamesFor bodies_data user_hint ∧
          (s = b ∨ ∃ k, 1 ≤ k ∧ s = b ++ " " ++ Nat.repr k) := by
  intro bodies_data user_hint
  refine ⟨generate_length bodies_data user_hint, ?_⟩
  intro s hs
  cases bodies_data with
  | nil => exact absurd hs (List.not_mem_nil s)
  | cons b0 bs =>
      have hne : (b0 :: bs : List BodyData) ≠ [] := List.cons_ne_nil _ _
      rw [generate_mem_iff _ _ hne] at hs
      obtain ⟨pr, hpr, hpr2⟩ := List.mem_map.mp hs
      rw [nameLoopOf] at hpr
      obtain ⟨p, _, _, hform⟩ := nameLoop_mem_form _ _ _ _ pr hpr
      refine ⟨chosenName (baseNamesFor (b0 :: bs) user_hint) p,
        select_best_name_mem _ _ _ (baseNamesFor_ne_nil _ _), ?_⟩
      rcases hform with ⟨_, h2⟩ | ⟨_, k, hk, h2⟩
      · exact Or.inl (by rw [← hpr2, h2])
      · exact Or.inr ⟨k, hk, by rw [← hpr2, h2]⟩

/-- A concrete batch of two bodies with empty property dicts; both select
the head candidate "Shaft" of the mechanical list. -/
def twoBodies : List BodyData := [{}, {}]

unseal List.merge List.mergeSort in
/-- C10 witness: on the two-body batch the output has one name per body,
and the output name "Shaft 1" is a candidate extended by a counter. -/
theorem generate_names_shape_witness :
    (generate_intelligent_names twoBodies "").length = 2 ∧
    (∃ b, b ∈ baseNamesFor twoBodies "" ∧
      ("Shaft 1" = b ∨ ∃ k, 1 ≤ k ∧ "Shaft 1" = b ++ " " ++ Nat.repr k)) :=
  ⟨(generate_names_shape twoBodies "").1,
   (generate_names_shape twoBodies "").2 "Shaft 1" (by decide)⟩

/-- C5: for every non-empty batch, the bodies are processed in the stable
order sorted by (max_dimension, centroid X) — `sortedBodiesOf` is a
permutation of the enumerated input, sorted under the lexicographic key
order `keyLE` — and the returned list is permuted back to input order: it
has one name per body and its `i`-th element is the name the naming loop
assigned to original index `i`. -/
theorem generate_names_sorted_order :
    ∀ (bodies_data : List BodyData) (user_hint : String), bodies_data ≠ [] →
      (sortedBodiesOf bodies_data).Perm (enumF 0 bodies_data) ∧
      List.Pairwise (fun p q => keyLE p q = true) (sortedBodiesOf bodies_data) ∧
      (generate_intelligent_names bodies_data user_hint).length =
        bodies_data.length ∧
      ∀ i (hi : i < (generate_intelligent_names bodies_data user_hint).length),
        (i, (generate_intelligent_names bodies_data user_hint)[i]) ∈
          nameLoopOf bodies_data user_hint :=
  fun bodies_data user_hint hne =>
    ⟨sortedBodiesOf_perm bodies_data, sortedBodiesOf_sorted bodies_data,
     generate_length bodies_data user_hint,
     generate_getElem_mem bodies_data user_hint hne⟩

unseal List.merge List.mergeSort in
/-- C5 witness: on the two-body batch, the sorted list is a permutation of
the enumerated input, the output has one name per body, and position 0 of
the output is the loop's name for original index 0. -/
theorem generate_names_sorted_order_witness :
    (sortedBodiesOf twoBodies).Perm (enumF 0 twoBodies) ∧
    (generate_intelligent_names twoBodies "").length = 2 ∧
    (0, "Shaft 1") ∈ nameLoopOf twoBodies "" :=
  ⟨(generate_names_sorted_order twoBodies "" (List.cons_ne_nil _ _)).1,
   (generate_names_sorted_order twoBodies "" (List.cons_ne_nil _ _)).2.2.1,
   (generate_names_sorted_order twoBodies ""
     (List.cons_ne_nil _ _)).2.2.2 0 (by decide)⟩

/-- C4: if a chosen base name is selected by more than one body of the
batch, the bare name does not occur in the output and every occurrence
carries a trailing space plus a 1-based occurrence counter (" 1", " 2",
..., up to the number of bodies that chose it); if all chosen base names
are distinct, the output is exactly the list of bare chosen names. -/
theorem generate_names_collision_suffixing :
    ∀ (bodies_data : List BodyData) (user_hint : String),
      (∀ b, 1 < (chosenBases bodies_data user_hint).count b →
        b ∉ generate_intelligent_names bodies_data user_hint ∧
        ∀ i, i < (chosenBases bodies_data user_hint).count b →
          (b ++ " " ++ Nat.repr (i + 1)) ∈
            generate_intelligent_names bodies_data user_hint) ∧
      ((chosenBases bodies_data user_hint).Nodup →
        generate_intelligent_names bodies_data user_hint =
          chosenBases bodies_data user_hint) := by
  intro bodies_data user_hint
  cases bodies_data with
  | nil =>
      constructor
      · intro b hb
        simp [chosenBases] at hb
      · intro _; rfl
  | cons b0 bs =>
      have hne : (b0 :: bs : List BodyData) ≠ [] := List.cons_ne_nil _ _
      constructor
      · intro b hb
        have hbac : 1 < (allChosenOf (b0 :: bs) user_hint).count b := by
          rw [allChosen_count]; exact hb
        have hbmem : b ∈ chosenBases (b0 :: bs) user_hint :=
          List.count_pos_iff.mp (by omega)
        have hbin : b ∈ baseNamesFor (b0 :: bs) user_hint := by
          rw [chosenBases] at hbmem
          obtain ⟨bd, _, hbd⟩ := List.mem_map.mp hbmem
          rw [← hbd]
          exact select_best_name_mem _ _ _ (baseNamesFor_ne_nil _ _)
        have hbnd : ∀ ch ∈ b.data, ch.isDigit = false :=
          baseNamesFor_noDigit _ _ b hbin
        constructor
        · intro hmem
          rw [generate_mem_iff _ _ hne] at hmem
          obtain ⟨pr, hpr, hpr2⟩ := List.mem_map.mp hmem
          rw [nameLoopOf] at hpr
          obtain ⟨p, _, _, hform⟩ := nameLoop_mem_form _ _ _ _ pr hpr
          rcases hform with ⟨hle, h2⟩ | ⟨_, k, hk, h2⟩
          · have hcb : chosenName (baseNamesFor (b0 :: bs) user_hint) p = b := by
              rw [← h2, hpr2]
            rw [hcb] at hle
            omega
          · have hbad : b = chosenName (baseNamesFor (b0 :: bs) user_hint) p ++
                " " ++ Nat.repr k := by
              rw [← hpr2, h2]
            exact candidate_ne_suffixed k hbnd hbad
        · intro i hi
          have hi' : i < ((sortedBodiesOf (b0 :: bs)).map
              (chosenName (baseNamesFor (b0 :: bs) user_hint))).count b := by
            show i < (allChosenOf (b0 :: bs) user_hint).count b
            rw [allChosen_count]
            exact hi
          have hmem := nameLoop_suffix_mem
            (baseNamesFor (b0 :: bs) user_hint)
            (allChosenOf (b0 :: bs) user_hint)
            (sortedBodiesOf (b0 :: bs)) (fun _ => 0) b hbac i hi'
          simp only [Nat.zero_add] at hmem
          rw [generate_mem_iff _ _ hne, nameLoopOf]
          exact hmem
      · intro hnd
        apply List.ext_getElem
        · rw [generate_length, chosenBases, List.length_map]
        · intro i h1 h2
          have hpair := generate_getElem_mem (b0 :: bs) user_hint hne i h1
          have hall : ∀ p ∈ sortedBodiesOf (b0 :: bs),
              (allChosenOf (b0 :: bs) user_hint).count
                (chosenName (baseNamesFor (b0 :: bs) user_hint) p) ≤ 1 := by
            intro p _
            rw [allChosen_count]
            exact List.nodup_iff_count_le_one.mp hnd _
          rw [nameLoopOf, nameLoop_all_bare _ _ _ _ hall] at hpair
          obtain ⟨p, hp, hpe⟩ := List.mem_map.mp hpair
          have hfst : p.1 = i := congrArg Prod.fst hpe
          have hsnd : chosenName (baseNamesFor (b0 :: bs) user_hint) p =
              (generate_intelligent_names (b0 :: bs) user_hint)[i] :=
            congrArg Prod.snd hpe
          have hpmem : p ∈ enumF 0 (b0 :: bs) :=
            (sortedBodiesOf_perm _).mem_iff.mp hp
          obtain ⟨j, hj, hj1, hj2⟩ := enumF_mem _ _ _ hpmem
          have hji : j = i := by omega
          subst hji
          rw [← hsnd]
          simp only [chosenBases, List.getElem_map]
          rw [hj2]
          rfl

/-- C4 witness: on the two-body batch both bodies choose "Shaft"; the bare
name is absent from the output and the first occurrence carries the
1-based counter. -/
theorem generate_names_collision_suffixing_witness :
    "Shaft" ∉ generate_intelligent_names twoBodies "" ∧
    ("Shaft" ++ " " ++ Nat.repr (0 + 1)) ∈
      generate_intelligent_names twoBodies "" :=
  ⟨((generate_names_collision_suffixing twoBodies "").1 "Shaft" (by decide)).1,
   ((generate_names_collision_suffixing twoBodies "").1 "Shaft"
     (by decide)).2 0 (by decide)⟩

/-- C6: no division by zero on degenerate input: the aspect-ratio
denominator `min(width, height, depth) + 0.001` is strictly positive for
every bounding box (the dimensions are absolute values, hence nonnegative,
and the epsilon keeps the sum away from zero; `is_flat` and `is_cubic`
involve no division at all), and the geometry scratchpad's point-to-line
distance returns the infinity marker (`none`) for a zero-length line
instead of dividing by zero. -/
theorem no_division_by_zero :
    (∀ bb : BBoxSource, 0 < aspectDenominator bb) ∧
    (∀ (point : GPoint) (line : GLine), line.start = line.endPoint →
      point_to_line_distance point line = none) := by
  constructor
  · intro bb
    have h1 : 0 ≤ minDimOf bb := by
      unfold minDimOf widthOf heightOf depthOf
      have ha := abs_nonneg (bb.maxPoint.x - bb.minPoint.x)
      have hb := abs_nonneg (bb.maxPoint.y - bb.minPoint.y)
      have hc := abs_nonneg (bb.maxPoint.z - bb.minPoint.z)
      exact le_min ha (le_min hb hc)
    unfold aspectDenominator
    have : (0 : ℚ) < 1 / 1000 := by norm_num
    linarith
  · intro point line h
    have hz : lineDenomSq line = 0 := by
      unfold lineDenomSq
      rw [h]
      ring
    unfold point_to_line_distance
    rw [if_pos hz]

/-- C6 witness: a fully degenerate (all-zero) bounding box still has a
positive aspect-ratio denominator, and the distance to a concrete
zero-length line is the infinity marker. -/
theorem no_division_by_zero_witness :
    0 < aspectDenominator ⟨⟨0, 0, 0⟩, ⟨0, 0, 0⟩⟩ ∧
    point_to_line_distance ⟨1, 1⟩ ⟨⟨2, 3⟩, ⟨2, 3⟩⟩ = none :=
  ⟨no_division_by_zero.1 ⟨⟨0, 0, 0⟩, ⟨0, 0, 0⟩⟩,
   no_division_by_zero.2 ⟨1, 1⟩ ⟨⟨2, 3⟩, ⟨2, 3⟩⟩ rfl⟩

/-- Modelled from the spec's words for C7: "all dimensions within 10% of
each other" — every pair among width, height and depth differs by less
than 10% (taken relative to the larger element of the pair, the most
lenient reading). -/
def pairwiseWithin10 (w h d : ℚ) : Prop :=
  |w - h| < (1 / 10) * max w h ∧ |w - d| < (1 / 10) * max w d ∧
  |h - d| < (1 / 10) * max h d

/-- The C7 counterexample box: dimensions 10, 9.1 and 10.9. -/
def c7bb : BBoxSource := ⟨⟨0, 0, 0⟩, ⟨10, 91 / 10, 109 / 10⟩⟩

/-- C7 counterexample: for the box with dimensions 10, 9.1, 10.9 the code
sets `is_cubic` to true (both height and depth are within 10% of the
width), yet height and depth differ by 1.8, far more than 10% of either,
so "all three dimensions within 10% of each other" fails: the code never
compares height with depth, and measures the 10% against the width only. -/
theorem c7bb_width : widthOf c7bb = 10 := by
  show |(10 : ℚ) - 0| = 10
  rw [sub_zero]
  exact abs_of_nonneg (by norm_num)

theorem c7bb_height : heightOf c7bb = 91 / 10 := by
  show |(91 / 10 : ℚ) - 0| = 91 / 10
  rw [sub_zero]
  exact abs_of_nonneg (by norm_num)

theorem c7bb_depth : depthOf c7bb = 109 / 10 := by
  show |(109 / 10 : ℚ) - 0| = 109 / 10
  rw [sub_zero]
  exact abs_of_nonneg (by norm_num)

theorem is_cubic_counterexample :
    (analyze_body_characteristics { boundingBox := some (some c7bb) }).is_cubic
      = some true ∧
    ¬ pairwiseWithin10 (widthOf c7bb) (heightOf c7bb) (depthOf c7bb) := by
  constructor
  · rw [show (analyze_body_characteristics
        { boundingBox := some (some c7bb) }).is_cubic =
        some (decide (|widthOf c7bb - heightOf c7bb| < (1 / 10) * widthOf c7bb ∧
          |widthOf c7bb - depthOf c7bb| < (1 / 10) * widthOf c7bb)) from rfl]
    simp only [Option.some.injEq]
    rw [decide_eq_true_eq]
    rw [c7bb_width, c7bb_height, c7bb_depth]
    constructor <;> (rw [abs_sub_lt_iff]; constructor <;> norm_num)
  · intro hpw
    obtain ⟨_, _, h3⟩ := hpw
    rw [c7bb_height, c7bb_depth] at h3
    rw [max_eq_right (by norm_num : (91 / 10 : ℚ) ≤ 109 / 10)] at h3
    rw [abs_sub_lt_iff] at h3
    obtain ⟨_, h4⟩ := h3
    norm_num at h4

/-- C7 amended: `is_cubic` is true exactly when height and depth are each
within 10% of the *width* (`|width − height| < width/10` and
`|width − depth| < width/10`); the height–depth pair is never compared. -/
theorem is_cubic_amended :
    ∀ bb : BBoxSource,
      ((analyze_body_characteristics
          { boundingBox := some (some bb) }).is_cubic = some true) ↔
      (|widthOf bb - heightOf bb| < (1 / 10) * widthOf bb ∧
       |widthOf bb - depthOf bb| < (1 / 10) * widthOf bb) := by
  intro bb
  rw [show (analyze_body_characteristics
      { boundingBox := some (some bb) }).is_cubic =
      some (decide (|widthOf bb - heightOf bb| < (1 / 10) * widthOf bb ∧
        |widthOf bb - depthOf bb| < (1 / 10) * widthOf bb)) from rfl]
  simp only [Option.some.injEq, decide_eq_true_eq]

/-- C8 counterexample: the body record with every attribute missing (no
`physicalProperties`, no `boundingBox`, no `faces`) raises nothing, so the
analyzer returns a descriptor whose fields are simply absent — a partial
descriptor with no error marker set, contradicting the claim that a
missing field always produces an error-marker-only descriptor. -/
theorem analyze_body_missing_fields_counterexample :
    (analyze_body_characteristics {}).width = none ∧
    (analyze_body_characteristics {}).error = none ∧
    (analyze_body_characteristics {}).analysis_failed = none :=
  ⟨rfl, rfl, rfl⟩

/-- C8 amended: `analyze_body_characteristics` is total (no exception
escapes); when a property access raises, it returns the descriptor holding
only the error marker, and when nothing raises, no error marker is set —
but attributes missing from the body are silently skipped by the `hasattr`
guards, yielding a partial descriptor rather than an error-marked one. -/
theorem analyze_body_error_handling :
    ∀ body : HostBody,
      (∀ e, body.raisesOn = some e →
        analyze_body_characteristics body = errorProps e) ∧
      (body.raisesOn = none →
        (analyze_body_characteristics body).error = none ∧
        (analyze_body_characteristics body).analysis_failed = none) := by
  intro body
  constructor
  · intro e he
    rcases body with ⟨pp, bb, fc, ro⟩
    have hro : ro = some e := he
    subst hro
    rfl
  · intro hn
    rcases body with ⟨pp, bb, fc, ro⟩
    have hro : ro = none := hn
    subst hro
    cases pp <;> rcases bb with _ | (_ | bbx) <;> cases fc <;> exact ⟨rfl, rfl⟩

/-- C8 witness: a body whose property access raises "boom" yields exactly
the error-marker descriptor, and the all-missing body yields no error
marker. -/
theorem analyze_body_error_handling_witness :
    analyze_body_characteristics { raisesOn := some "boom" } =
      errorProps "boom" ∧
    (analyze_body_characteristics {}).error = none :=
  ⟨(analyze_body_error_handling { raisesOn := some "boom" }).1 "boom" rfl,
   ((analyze_body_error_handling {}).2 rfl).1⟩

/-- C9: exporting naming rules and re-importing from the same file yields a
JSON mapping whose `bodies_count` equals the batch size and whose
`naming_rules` list has one entry per body; an unwritable target makes
export return `false` with the store unchanged, and an unreadable source
makes import return the empty mapping. -/
theorem export_import_round_trip :
    ∀ (fs : FileStore) (bodies_data : List BodyData) (filename : String)
      (ts : ℚ),
      (fs.canWrite filename = true →
        (export_naming_rules fs bodies_data filename ts).2 = true ∧
        ((export_naming_rules fs bodies_data filename ts).1.canRead filename =
            true →
          jlookup (import_naming_rules
              (export_naming_rules fs bodies_data filename ts).1 filename)
            "bodies_count" = some (.num (bodies_data.length : ℚ)) ∧
          ∃ l, jlookup (import_naming_rules
              (export_naming_rules fs bodies_data filename ts).1 filename)
            "naming_rules" = some (.arr l) ∧ l.length = bodies_data.length)) ∧
      (fs.canWrite filename = false →
        export_naming_rules fs bodies_data filename ts = (fs, false)) ∧
      (fs.canRead filename = false →
        import_naming_rules fs filename = .obj []) := by
  intro fs bodies_data filename ts
  refine ⟨?_, ?_, ?_⟩
  · intro hw
    simp only [export_naming_rules, hw, if_true]
    refine ⟨trivial, ?_⟩
    intro hr
    simp only [import_naming_rules, hr, if_true]
    simp only [List.lookup, beq_self_eq_true]
    refine ⟨?_, bodies_data.map ruleOf, ?_, List.length_map _ _⟩
    · simp [jlookup, List.lookup]
    · simp [jlookup, List.lookup]
  · intro hw
    simp [export_naming_rules, hw]
  · intro hr
    simp [import_naming_rules, hr]

/-- C9 witness: on a store that accepts all reads and writes, exporting the
two-body batch reports success and re-importing recovers `bodies_count`
2. -/
theorem export_import_round_trip_witness :
    (export_naming_rules ⟨[], fun _ => true, fun _ => true⟩ twoBodies
      "rules.json" 0).2 = true ∧
    jlookup (import_naming_rules
        (export_naming_rules ⟨[], fun _ => true, fun _ => true⟩ twoBodies
          "rules.json" 0).1 "rules.json") "bodies_count" =
      some (.num (twoBodies.length : ℚ)) :=
  ⟨((export_import_round_trip ⟨[], fun _ => true, fun _ => true⟩ twoBodies
      "rules.json" 0).1 rfl).1,
   (((export_import_round_trip ⟨[], fun _ => true, fun _ => true⟩ twoBodies
      "rules.json" 0).1 rfl).2 rfl).1⟩
